import Mathlib

/-!
Shallow embedding of the CSV tidying pipeline in src/pipeline/data_pipeline.py.

Strings from the Python side are modelled as Lean String / List Char; the
pandas missing value (NaN / None) is modelled with Option; monetary values
parsed by Python float are modelled exactly as rationals; DataFrames are
modelled as lists of rows.
-/

/-- Python str.strip (leading and trailing whitespace removed), on char lists. -/
def stripChars (l : List Char) : List Char :=
  ((l.dropWhile Char.isWhitespace).reverse.dropWhile Char.isWhitespace).reverse

/-- Value of a digit character: Python int semantics, c - '0'. -/
def digitVal (c : Char) : Nat := c.toNat - 48

/-- Accumulator form of reading a decimal digit string. -/
def digitsValAux : Nat → List Char → Nat
  | acc, [] => acc
  | acc, c :: r => digitsValAux (acc * 10 + digitVal c) r

/-- Numeric value of a digit string. -/
def digitsVal (l : List Char) : Nat := digitsValAux 0 l

/-- Split a char list at its first '.', returning the prefix and, when a dot
exists, the remainder after it. -/
def breakDot : List Char → List Char × Option (List Char)
  | [] => ([], none)
  | c :: r =>
    if c = '.' then ([], some r)
    else
      let p := breakDot r
      (c :: p.1, p.2)

/-- Python float() on an unsigned residual string: digits with at most one
dot and at least one digit. Result is the exact rational value. -/
def pyFloatUnsigned (l : List Char) : Option ℚ :=
  match breakDot l with
  | (a, none) =>
    if a ≠ [] ∧ a.all Char.isDigit then some (digitsVal a) else none
  | (a, some b) =>
    if a.all Char.isDigit ∧ b.all Char.isDigit ∧ (a ≠ [] ∨ b ≠ []) then
      some ((digitsVal a : ℚ) + (digitsVal b : ℚ) / 10 ^ b.length)
    else none

/-- Python float() on the residual alphabet (digits, '.', '-'): an optional
single leading sign, then an unsigned decimal string. -/
def pyFloat (l : List Char) : Option ℚ :=
  match l with
  | [] => pyFloatUnsigned []
  | c :: r =>
    if c = '+' then pyFloatUnsigned r
    else if c = '-' then (pyFloatUnsigned r).map (fun q => -q)
    else pyFloatUnsigned (c :: r)

/-- Parenthesis handling in _parse_amount: if the trimmed string is wrapped
in parentheses, strip them and record a negative sign. -/
def stripParens (s : List Char) : Bool × List Char :=
  if (s.head? == some '(') && (s.getLast? == some ')') then
    (true, (s.drop 1).dropLast)
  else (false, s)

/-- Characters kept by the re.sub character-class strip in _parse_amount. -/
def amountKeep (c : Char) : Bool := c.isDigit || c == '.' || c == '-'

/-- The residual string fed to float() inside _parse_amount. -/
def amountResidual (raw : List Char) : List Char :=
  ((stripParens (stripChars raw)).2).filter amountKeep

/-- Core of _parse_amount on char lists; none models both NaN input and
parse failure. -/
def parseAmountChars (x : Option (List Char)) : Option ℚ :=
  match x with
  | none => none
  | some raw =>
    let s := stripChars raw
    if s = [] ∨ s = ['-'] then none
    else
      let neg := (stripParens s).1
      let s2 := ((stripParens s).2).filter amountKeep
      if s2 = [] ∨ s2 = ['.'] ∨ s2 = ['-'] then none
      else
        match pyFloat s2 with
        | none => none
        | some v => some (if neg then -v else v)

/-- _parse_amount from data_pipeline.py: robust numeric parser returning
none on any failure. -/
def _parse_amount (x : Option String) : Option ℚ :=
  parseAmountChars (x.map String.data)

unseal Rat.add Rat.mul Rat.inv Rat.ofScientific in
example : _parse_amount (some "(1,234.56)") = some (-1234.56 : ℚ) := by decide

unseal Rat.add Rat.mul Rat.inv Rat.ofScientific in
example : _parse_amount (some "  - 50 ") = some (-50 : ℚ) := by decide

example : _parse_amount (some "") = none := by decide

example : _parse_amount (some "1.2.3") = none := by decide

unseal Rat.add Rat.mul Rat.inv Rat.ofScientific in
example : _parse_amount (some "(-5)") = some (5 : ℚ) := by decide

/-- The MONTHS dictionary from data_pipeline.py, as an association list in
the source's insertion order. -/
def MONTHS : List (String × Nat) :=
  [("JAN", 1), ("JANUARY", 1),
   ("FEB", 2), ("FEBRUARY", 2),
   ("MAR", 3), ("MARCH", 3),
   ("APR", 4), ("APRIL", 4),
   ("MAY", 5),
   ("JUN", 6), ("JUNE", 6),
   ("JUL", 7), ("JULY", 7),
   ("AUG", 8), ("AUGUST", 8),
   ("SEP", 9), ("SEPT", 9), ("SEPTEMBER", 9),
   ("OCT", 10), ("OCTOBER", 10),
   ("NOV", 11), ("NOVEMBER", 11),
   ("DEC", 12), ("DECEMBER", 12)]

/-- The token strings MONTH_TOKEN_RE can match, in the regex engine's trial
order: alternatives left to right, and inside one alternative the greedy
optional suffix group first (for sep, the inner alternatives t then tember,
then the suffix omitted). -/
def MONTH_CANDIDATES : List String :=
  ["january", "jan", "february", "feb", "march", "mar", "april", "apr",
   "may", "june", "jun", "july", "jul", "august", "aug",
   "sept", "september", "sep", "october", "oct",
   "november", "nov", "december", "dec"]

/-- Word character for the regex word-boundary assertion. -/
def isWordChar (c : Char) : Bool := c.isAlphanum || c == '_'

/-- Case-insensitive match of a lowercase pattern against a prefix of the
input, returning the rest of the input on success. -/
def matchCIAux : List Char → List Char → Option (List Char)
  | [], l => some l
  | _ :: _, [] => none
  | p :: ps, c :: cs => if c.toLower = p then matchCIAux ps cs else none

/-- Word boundary after a match: end of input or a non-word character. -/
def boundaryAfter : List Char → Bool
  | [] => true
  | c :: _ => !isWordChar c

/-- Try MONTH_TOKEN_RE at the current position: the first candidate that
matches case-insensitively and is followed by a word boundary wins. The
returned token is the matched alternation group, lowercased. -/
def tryMonthAt (l : List Char) : Option (List Char) :=
  MONTH_CANDIDATES.findSome? fun cand =>
    match matchCIAux cand.data l with
    | some rest => if boundaryAfter rest then some cand.data else none
    | none => none

/-- Leftmost search for MONTH_TOKEN_RE: scan positions left to right; a
position is eligible when preceded by start-of-string or a non-word
character (the leading word boundary). -/
def monthSearchAux : Bool → List Char → Option (List Char)
  | _, [] => none
  | atB, c :: rest =>
    match (if atB then tryMonthAt (c :: rest) else none) with
    | some tok => some tok
    | none => monthSearchAux (!isWordChar c) rest

/-- re.search with MONTH_TOKEN_RE over a whole string. -/
def monthTokenSearch (s : List Char) : Option (List Char) :=
  monthSearchAux true s

/-- Try YEAR_RE at the current position: 19 or 20 followed by two digits. -/
def tryYearAt : List Char → Option Nat
  | a :: b :: c :: d :: _ =>
    if ((a = '1' ∧ b = '9') ∨ (a = '2' ∧ b = '0')) ∧ c.isDigit ∧ d.isDigit then
      some (digitsVal [a, b, c, d])
    else none
  | _ => none

/-- re.search with YEAR_RE: leftmost 4-digit match starting 19 or 20,
converted to its integer value. -/
def yearSearch : List Char → Option Nat
  | [] => none
  | c :: rest =>
    match tryYearAt (c :: rest) with
    | some y => some y
    | none => yearSearch rest

/-- _parse_period_label from data_pipeline.py: year from YEAR_RE, month via
MONTH_TOKEN_RE and the MONTHS table; none input models None/NaN. -/
def _parse_period_label (label : Option String) : Option Nat × Option Nat :=
  match label with
  | none => (none, none)
  | some lab =>
    let s := stripChars lab.data
    let year := yearSearch s
    let month :=
      match monthTokenSearch s with
      | none => none
      | some tok => MONTHS.lookup (String.mk (tok.map Char.toUpper))
    (year, month)

/-- _is_month_header from data_pipeline.py. -/
def _is_month_header (s : Option String) : Bool :=
  match s with
  | none => false
  | some t => (monthTokenSearch (stripChars t.data)).isSome

/-- os.path.basename on a POSIX path. -/
def basenameChars (l : List Char) : List Char :=
  (l.reverse.takeWhile (fun c => c ≠ '/')).reverse

/-- _parse_year_from_filename from data_pipeline.py. -/
def _parse_year_from_filename (fp : String) : Option Nat :=
  yearSearch (basenameChars fp.data)

example : _parse_period_label (some "2020 JAN") = (some 2020, some 1) := by decide
example : _parse_period_label (some "Aug") = (none, some 8) := by decide
example : _parse_period_label (some "2021-August") = (some 2021, some 8) := by decide
example : _parse_period_label (some "Q1") = (none, none) := by decide
example : _parse_period_label (some "September 2019") = (some 2019, some 9) := by decide
example : _parse_year_from_filename "2023_budget.csv" = some 2023 := by decide
example : _is_month_header (some "Aug-24") = true := by decide

/-- _normalize_cols from data_pipeline.py: strip every column name. -/
def _normalize_cols (cols : List String) : List String :=
  cols.map fun c => String.mk (stripChars c.data)

/-- Lowercase a string, character by character. -/
def lowerStr (s : String) : String := String.mk (s.data.map Char.toLower)

/-- The non_month set from process_csv. -/
def nonMonthSet : List String := ["total", "totals", "grand total"]

/-- The filter condition of the month-column comprehension in process_csv:
month-like header whose stripped lowercase text is not an obvious total. -/
def isPeriodCandidate (c : String) : Bool :=
  _is_month_header (some c) &&
    !(nonMonthSet.contains (lowerStr (String.mk (stripChars c.data))))

/-- Month-column selection in process_csv, including the Python or-fallback
to all non-category columns when the comprehension is empty. -/
def monthColsOf (cols : List String) : List String :=
  let filtered := cols.filter isPeriodCandidate
  if filtered = [] then cols else filtered

example : monthColsOf ["Jan", "Feb", "Total"] = ["Jan", "Feb"] := by decide
example : monthColsOf ["X", "Y"] = ["X", "Y"] := by decide

/-- One row of the tidy output: the five columns Year, Month, Type, Source,
Amount of the final frame, all nullable as pandas columns are. -/
structure TidyRecord where
  year : Option Nat
  month : Option Nat
  type : Option String
  source : Option String
  amount : Option ℚ
deriving DecidableEq, Repr

/-- Python / pandas lexicographic string comparison by code point. -/
def strCmpChars : List Char → List Char → Ordering
  | [], [] => .eq
  | [], _ :: _ => .lt
  | _ :: _, [] => .gt
  | a :: as, b :: bs => (compare a.toNat b.toNat).then (strCmpChars as bs)

/-- Comparison on nullable sort keys: pandas sorts NaN last in ascending
order. -/
def cmpOpt {α : Type} (cmp : α → α → Ordering) : Option α → Option α → Ordering
  | none, none => .eq
  | none, some _ => .gt
  | some _, none => .lt
  | some x, some y => cmp x y

/-- The sort key of the final sort_values call: (Year, Month, Type, Source)
compared lexicographically. -/
def tidyKeyCmp (r1 r2 : TidyRecord) : Ordering :=
  (cmpOpt compare r1.year r2.year).then
    ((cmpOpt compare r1.month r2.month).then
      ((cmpOpt (fun a b => strCmpChars a.data b.data) r1.type r2.type).then
        (cmpOpt (fun a b => strCmpChars a.data b.data) r1.source r2.source)))

/-- Boolean not-greater test used for the stable sort. -/
def tidyLe (r1 r2 : TidyRecord) : Bool := !(tidyKeyCmp r1 r2 == Ordering.gt)

/-- Stable insertion of an element into a sorted list: the new element goes
before the first existing element it is le-related to, matching the unique
stable-sort placement for elements that were earlier in the input. -/
def insertLe {α : Type} (le : α → α → Bool) (x : α) : List α → List α
  | [] => [x]
  | y :: ys => if le x y then x :: y :: ys else y :: insertLe le x ys

/-- Stable sort (insertion sort). For a total preorder le this computes the
unique stable sorting, which is what pandas sort_values with a stable kind
and Python sorted produce. -/
def stableSort {α : Type} (le : α → α → Bool) : List α → List α
  | [] => []
  | x :: xs => insertLe le x (stableSort le xs)

/-- Python str.split with the literal separator, maxsplit 1: split at the
first occurrence only; none when the separator does not occur. -/
def splitFirstSep (sep : List Char) : List Char → Option (List Char × List Char)
  | [] => none
  | c :: rest =>
    if sep.isPrefixOf (c :: rest) then some ([], (c :: rest).drop sep.length)
    else
      match splitFirstSep sep rest with
      | some (a, b) => some (c :: a, b)
      | none => none

/-- The Category split of process_csv: Type before the first " - ", Source
after it; a category with no separator keeps the whole string as Type and a
null Source; a null category yields null Type and Source. -/
def splitCategory (cat : Option String) : Option String × Option String :=
  match cat with
  | none => (none, none)
  | some s =>
    match splitFirstSep (" - ".data) s.data with
    | some (a, b) => (some (String.mk a), some (String.mk b))
    | none => (some s, none)

/-- Year fallback of process_csv: pd.to_numeric keeps a parsed year, and
fillna substitutes the filename year for a missing one. -/
def fillYear (y yFile : Option Nat) : Option Nat :=
  match y with
  | some v => some v
  | none => yFile

/-- One melted row of process_csv turned into a pre-filter record: period
label c is the melted column header, the cell is looked up by column name,
the year falls back to the filename year when the label has none. -/
def mkLongRecord (yFile : Option Nat) (dataCols : List String) (c : String)
    (row : List (Option String)) : TidyRecord :=
  let cat := row.head?.join
  let raw := ((dataCols.zip (row.drop 1)).lookup c).join
  let ts := splitCategory cat
  let ym := _parse_period_label (some c)
  { year := fillYear ym.1 yFile
    month := ym.2
    type := ts.1
    source := ts.2
    amount := _parse_amount raw }

/-- The melted long frame of process_csv, in pandas melt order: one block
per selected period column, rows in input order inside a block. -/
def meltFrame (filePath : String) (header : List String)
    (rows : List (List (Option String))) : List TidyRecord :=
  let dataCols := (_normalize_cols header).drop 1
  let mcols := monthColsOf dataCols
  let yFile := _parse_year_from_filename filePath
  mcols.flatMap fun c => rows.map fun row => mkLongRecord yFile dataCols c row

/-- process_csv from data_pipeline.py: none models the skipped-empty-file
early return (no tidy file written); otherwise the sorted tidy rows that
are written to the output CSV. -/
def process_csv (filePath : String) (header : List String)
    (rows : List (List (Option String))) : Option (List TidyRecord) :=
  if rows = [] then none
  else
    some (stableSort tidyLe
      ((meltFrame filePath header rows).filter
        fun r => r.amount.isSome && r.month.isSome))

/-- Filename order used by sorted() in the source, as a Boolean le. -/
def nameLe (a b : String × List TidyRecord) : Bool := decide (a.1 ≤ b.1)

/-- merge_tidy_csv_to_parquet from data_pipeline.py: sort the tidy files by
filename, concatenate their rows; none models the no-files warning branch
where no parquet is written. -/
def merge_tidy (files : List (String × List TidyRecord)) : Option (List TidyRecord) :=
  if files = [] then none
  else some ((stableSort nameLe files).flatMap Prod.snd)

/-- Path.stem: final path component without its last extension. -/
def stemChars (l : List Char) : List Char :=
  let b := basenameChars l
  match splitFirstSep ['.'] b.reverse with
  | some (_, rest) => if rest = [] then b else rest.reverse
  | none => b

/-- The raw CSV files visible in the input directory, keyed by filename. -/
structure RawCsv where
  name : String
  header : List String
  rows : List (List (Option String))
deriving DecidableEq

/-- The state run_pipeline sees: whether data/raw exists, and its files. -/
structure RawWorld where
  rawDirExists : Bool
  rawFiles : List RawCsv

/-- Boolean filename order on raw CSV files. -/
def rawNameLe (a b : RawCsv) : Bool := decide (a.name ≤ b.name)

/-- run_pipeline from data_pipeline.py: fail fast when the raw directory is
missing, otherwise tidy each CSV in sorted filename order and merge. The ok
payload is the list of written tidy files and the merged dataset (none when
nothing was merged). -/
def run_pipeline (w : RawWorld) :
    Except String (List (String × List TidyRecord) × Option (List TidyRecord)) :=
  if w.rawDirExists = false then Except.error "Raw directory not found"
  else
    let csvs := stableSort rawNameLe w.rawFiles
    if csvs = [] then Except.ok ([], none)
    else
      let tidyFiles := csvs.filterMap fun f =>
        match process_csv f.name f.header f.rows with
        | some recs => some (String.mk (stemChars f.name.data) ++ "_tidy.csv", recs)
        | none => none
      Except.ok (tidyFiles, merge_tidy tidyFiles)

/-! Helper lemmas about the embedded definitions. -/

theorem isDigit_toNat_bounds {c : Char} (h : c.isDigit = true) :
    48 ≤ c.toNat ∧ c.toNat ≤ 57 := by
  simp [Char.isDigit] at h
  exact h

theorem digitVal_le_nine {c : Char} (h : c.isDigit = true) : digitVal c ≤ 9 := by
  have := isDigit_toNat_bounds h
  unfold digitVal
  omega

theorem tryYearAt_bounds : ∀ l y, tryYearAt l = some y → 1900 ≤ y ∧ y ≤ 2099 := by
  intro l y h
  match l with
  | [] => simp [tryYearAt] at h
  | [a] => simp [tryYearAt] at h
  | [a, b] => simp [tryYearAt] at h
  | [a, b, c] => simp [tryYearAt] at h
  | a :: b :: c :: d :: rest =>
    rw [tryYearAt] at h
    split at h
    · rename_i hcond
      obtain ⟨hab, hc, hd⟩ := hcond
      injection h with h
      subst h
      have hcv := digitVal_le_nine hc
      have hdv := digitVal_le_nine hd
      rcases hab with ⟨ha, hb⟩ | ⟨ha, hb⟩
      · subst ha; subst hb
        have e : digitsVal ['1', '9', c, d] = (190 + digitVal c) * 10 + digitVal d := rfl
        rw [e]
        omega
      · subst ha; subst hb
        have e : digitsVal ['2', '0', c, d] = (200 + digitVal c) * 10 + digitVal d := rfl
        rw [e]
        omega
    · exact absurd h (by simp)

theorem yearSearch_bounds : ∀ l y, yearSearch l = some y → 1900 ≤ y ∧ y ≤ 2099 := by
  intro l
  induction l with
  | nil => intro y h; simp [yearSearch] at h
  | cons c rest ih =>
    intro y h
    rw [yearSearch] at h
    rcases he : tryYearAt (c :: rest) with _ | y'
    · rw [he] at h
      exact ih y h
    · rw [he] at h
      injection h with h
      subst h
      exact tryYearAt_bounds _ _ he

theorem lookup_val_bounds :
    ∀ (l : List (String × Nat)), (∀ p ∈ l, 1 ≤ p.2 ∧ p.2 ≤ 12) →
      ∀ k m, l.lookup k = some m → 1 ≤ m ∧ m ≤ 12 := by
  intro l
  induction l with
  | nil => intro _ k m h; simp [List.lookup] at h
  | cons p rest ih =>
    intro hall k m h
    rw [List.lookup] at h
    split at h
    · injection h with h
      subst h
      exact hall p (List.mem_cons_self p rest)
    · exact ih (fun q hq => hall q (List.mem_cons_of_mem p hq)) k m h

theorem parse_period_month_bounds :
    ∀ lab m, (_parse_period_label lab).2 = some m → 1 ≤ m ∧ m ≤ 12 := by
  intro lab m h
  match lab with
  | none => simp [_parse_period_label] at h
  | some s =>
    simp only [_parse_period_label] at h
    rcases he : monthTokenSearch (stripChars s.data) with _ | tok
    · rw [he] at h
      simp at h
    · rw [he] at h
      exact lookup_val_bounds MONTHS (by decide) _ m h

theorem parse_period_year_bounds :
    ∀ lab y, (_parse_period_label lab).1 = some y → 1900 ≤ y ∧ y ≤ 2099 := by
  intro lab y h
  match lab with
  | none => simp [_parse_period_label] at h
  | some s =>
    simp only [_parse_period_label] at h
    exact yearSearch_bounds _ y h

theorem mem_insertLe {α : Type} {le : α → α → Bool} {x a : α} :
    ∀ {l : List α}, a ∈ insertLe le x l ↔ a = x ∨ a ∈ l := by
  intro l
  induction l with
  | nil => simp [insertLe]
  | cons y ys ih =>
    by_cases hxy : le x y = true
    · simp [insertLe, hxy]
    · simp only [insertLe, hxy, Bool.false_eq_true, if_false, List.mem_cons, ih]
      tauto

theorem insertLe_perm {α : Type} (le : α → α → Bool) (x : α) :
    ∀ l : List α, (insertLe le x l).Perm (x :: l) := by
  intro l
  induction l with
  | nil => simp [insertLe]
  | cons y ys ih =>
    by_cases hxy : le x y = true
    · simp [insertLe, hxy, List.Perm.refl]
    · simp only [insertLe, hxy, Bool.false_eq_true, if_false]
      exact (ih.cons y).trans (List.Perm.swap x y ys)

theorem stableSort_perm {α : Type} (le : α → α → Bool) :
    ∀ l : List α, (stableSort le l).Perm l := by
  intro l
  induction l with
  | nil => simp [stableSort]
  | cons x xs ih =>
    exact (insertLe_perm le x (stableSort le xs)).trans (ih.cons x)

theorem mem_stableSort {α : Type} {le : α → α → Bool} {a : α} {l : List α} :
    a ∈ stableSort le l ↔ a ∈ l :=
  (stableSort_perm le l).mem_iff

theorem pairwise_insertLe {α : Type} {le : α → α → Bool}
    (htot : ∀ a b, (le a b || le b a) = true)
    (htr : ∀ a b c, le a b = true → le b c = true → le a c = true)
    (x : α) : ∀ {l : List α}, l.Pairwise (fun a b => le a b = true) →
      (insertLe le x l).Pairwise (fun a b => le a b = true) := by
  intro l
  induction l with
  | nil => intro _; simp [insertLe]
  | cons y ys ih =>
    intro hp
    rw [List.pairwise_cons] at hp
    obtain ⟨hy, hys⟩ := hp
    by_cases hxy : le x y = true
    · simp only [insertLe, hxy, if_true]
      rw [List.pairwise_cons]
      refine ⟨?_, ?_⟩
      · intro z hz
        rcases List.mem_cons.mp hz with hz | hz
        · exact hz ▸ hxy
        · exact htr x y z hxy (hy z hz)
      · rw [List.pairwise_cons]
        exact ⟨hy, hys⟩
    · simp only [insertLe, hxy, Bool.false_eq_true, if_false]
      rw [List.pairwise_cons]
      refine ⟨?_, ih hys⟩
      intro z hz
      rcases mem_insertLe.mp hz with hz | hz
      · have hor : le x y = true ∨ le y x = true := by simpa using htot x y
        rcases hor with h | h
        · exact absurd h hxy
        · exact hz ▸ h
      · exact hy z hz

theorem pairwise_stableSort {α : Type} {le : α → α → Bool}
    (htot : ∀ a b, (le a b || le b a) = true)
    (htr : ∀ a b c, le a b = true → le b c = true → le a c = true) :
    ∀ l : List α, (stableSort le l).Pairwise (fun a b => le a b = true) := by
  intro l
  induction l with
  | nil => simp [stableSort]
  | cons x xs ih => exact pairwise_insertLe htot htr x ih

theorem breakDot_none : ∀ {l a : List Char}, breakDot l = (a, none) → a = l ∧ '.' ∉ l := by
  intro l
  induction l with
  | nil =>
    intro a h
    rw [breakDot] at h
    simp only [Prod.mk.injEq] at h
    simp [h.1.symm]
  | cons c r ih =>
    intro a h
    rw [breakDot] at h
    split at h
    · exact absurd (congrArg Prod.snd h) (by simp)
    · rename_i hc
      rcases hbr : breakDot r with ⟨p1, p2⟩
      rw [hbr] at h
      simp only [Prod.mk.injEq] at h
      obtain ⟨h1, h2⟩ := h
      subst h2
      obtain ⟨hp1, hnm⟩ := ih hbr
      refine ⟨h1.symm ▸ (by rw [hp1]), ?_⟩
      intro hmem
      rcases List.mem_cons.mp hmem with he | he
      · exact hc he.symm
      · exact hnm he

theorem breakDot_some : ∀ {l a b : List Char}, breakDot l = (a, some b) →
    l = a ++ '.' :: b ∧ '.' ∉ a := by
  intro l
  induction l with
  | nil =>
    intro a b h
    rw [breakDot] at h
    simp at h
  | cons c r ih =>
    intro a b h
    rw [breakDot] at h
    split at h
    · rename_i hc
      simp only [Prod.mk.injEq] at h
      obtain ⟨h1, h2⟩ := h
      injection h2 with h2
      subst hc
      rw [← h1, ← h2]
      simp
    · rename_i hc
      rcases hbr : breakDot r with ⟨p1, p2⟩
      rw [hbr] at h
      simp only [Prod.mk.injEq] at h
      obtain ⟨h1, h2⟩ := h
      subst h2
      obtain ⟨hr, hnm⟩ := ih hbr
      refine ⟨?_, ?_⟩
      · rw [← h1, hr]
        simp
      · rw [← h1]
        intro hmem
        rcases List.mem_cons.mp hmem with he | he
        · exact hc he.symm
        · exact hnm he

theorem char_eq_zero_of_toNat {c : Char} (h : c.toNat = 48) : c = '0' :=
  Char.ext (UInt32.toNat.inj h)

theorem digitVal_pos_of_ne_zero {c : Char} (hd : c.isDigit = true) (hne : c ≠ '0') :
    1 ≤ digitVal c := by
  have hb := isDigit_toNat_bounds hd
  have h48 : c.toNat ≠ 48 := fun h => hne (char_eq_zero_of_toNat h)
  unfold digitVal
  omega

theorem digitsValAux_nil (acc : Nat) : digitsValAux acc [] = acc := rfl

theorem digitsValAux_cons (acc : Nat) (c : Char) (r : List Char) :
    digitsValAux acc (c :: r) = digitsValAux (acc * 10 + digitVal c) r := rfl

theorem digitsValAux_pos :
    ∀ (l : List Char) (acc : Nat), (∀ c ∈ l, c.isDigit = true) →
      ((∃ d ∈ l, d ≠ '0') ∨ 0 < acc) → 0 < digitsValAux acc l := by
  intro l
  induction l with
  | nil =>
    intro acc _ h
    rcases h with ⟨d, hd, _⟩ | h
    · exact absurd hd (List.not_mem_nil d)
    · exact h
  | cons c r ih =>
    intro acc hall h
    rw [digitsValAux_cons]
    have htail : ∀ x ∈ r, x.isDigit = true := fun x hx => hall x (List.mem_cons_of_mem c hx)
    rcases h with ⟨d, hd, hne⟩ | hacc
    · rcases List.mem_cons.mp hd with he | he
      · have hc : c ≠ '0' := he ▸ hne
        have h1 := digitVal_pos_of_ne_zero (hall c (List.mem_cons_self c r)) hc
        exact ih _ htail (Or.inr (by omega))
      · by_cases hc0 : 0 < acc * 10 + digitVal c
        · exact ih _ htail (Or.inr hc0)
        · exact ih _ htail (Or.inl ⟨d, he, hne⟩)
    · exact ih _ htail (Or.inr (by omega))

theorem pyFloatUnsigned_two_dots {l : List Char} (h : 2 ≤ l.count '.') :
    pyFloatUnsigned l = none := by
  rw [pyFloatUnsigned]
  rcases hbr : breakDot l with ⟨a, p2⟩
  rcases p2 with _ | b
  · obtain ⟨ha, hnm⟩ := breakDot_none hbr
    have : l.count '.' = 0 := List.count_eq_zero.mpr hnm
    omega
  · obtain ⟨hl, hnm⟩ := breakDot_some hbr
    have hca : a.count '.' = 0 := List.count_eq_zero.mpr hnm
    have hcl : l.count '.' = a.count '.' + (('.' :: b).count '.') := by
      rw [hl, List.count_append]
    have hcb : ('.' :: b).count '.' = b.count '.' + 1 := by
      rw [List.count_cons]
      simp
    have hbpos : 0 < b.count '.' := by omega
    have hdot : '.' ∈ b := List.count_pos_iff.mp hbpos
    have hnall : b.all Char.isDigit ≠ true := by
      intro hall
      have := List.all_eq_true.mp hall '.' hdot
      simp [Char.isDigit] at this
    split
    · rename_i a2 heq
      exact absurd (congrArg Prod.snd heq) (by simp)
    · rename_i a2 b2 heq
      injection heq with h1 h2
      injection h2 with h2
      subst h1
      subst h2
      exact if_neg (fun hcond => hnall hcond.2.1)

theorem pyFloat_two_dots {l : List Char} (h : 2 ≤ l.count '.') : pyFloat l = none := by
  match l with
  | [] => simp [List.count_nil] at h
  | c :: r =>
    rw [pyFloat]
    have hcr := List.count_cons '.' c r
    by_cases h1 : c = '+'
    · subst h1
      rw [if_pos rfl]
      apply pyFloatUnsigned_two_dots
      have he : ('+' == '.') = false := by decide
      rw [he, if_neg (by decide : ¬false = true)] at hcr
      omega
    · rw [if_neg h1]
      by_cases h2 : c = '-'
      · subst h2
        rw [if_pos rfl]
        have he : ('-' == '.') = false := by decide
        rw [he, if_neg (by decide : ¬false = true)] at hcr
        rw [pyFloatUnsigned_two_dots (by omega : 2 ≤ r.count '.')]
        rfl
      · rw [if_neg h2]
        exact pyFloatUnsigned_two_dots h

theorem tryMonthAt_mem {l tok : List Char} (h : tryMonthAt l = some tok) :
    ∃ cand ∈ MONTH_CANDIDATES, tok = cand.data := by
  rw [tryMonthAt] at h
  obtain ⟨cand, hmem, hc⟩ := List.exists_of_findSome?_eq_some h
  refine ⟨cand, hmem, ?_⟩
  rcases hm : matchCIAux cand.data l with _ | rest
  · rw [hm] at hc
    simp at hc
  · rw [hm] at hc
    have hc2 : (if boundaryAfter rest = true then some cand.data else none) = some tok := hc
    by_cases hb : boundaryAfter rest = true
    · rw [if_pos hb] at hc2
      injection hc2 with hc2
      exact hc2.symm
    · rw [if_neg hb] at hc2
      simp at hc2

theorem monthSearchAux_some :
    ∀ (l : List Char) (atB : Bool) (tok : List Char), monthSearchAux atB l = some tok →
      ∃ cand ∈ MONTH_CANDIDATES, tok = cand.data := by
  intro l
  induction l with
  | nil => intro atB tok h; rw [monthSearchAux] at h; exact absurd h (by simp)
  | cons c rest ih =>
    intro atB tok h
    rw [monthSearchAux] at h
    rcases htr : (if atB then tryMonthAt (c :: rest) else none) with _ | tok2
    · rw [htr] at h
      exact ih _ _ h
    · rw [htr] at h
      injection h with h
      subst h
      rcases atB with _ | _
      · simp at htr
      · rw [if_pos rfl] at htr
        exact tryMonthAt_mem htr

theorem months_lookup_of_candidate :
    ∀ cand ∈ MONTH_CANDIDATES,
      ∃ m, MONTHS.lookup (String.mk (cand.data.map Char.toUpper)) = some m ∧
        1 ≤ m ∧ m ≤ 12 := by
  decide

theorem monthTokenSearch_lookup {s : List Char} {tok : List Char}
    (h : monthTokenSearch s = some tok) :
    ∃ m, MONTHS.lookup (String.mk (tok.map Char.toUpper)) = some m ∧ 1 ≤ m ∧ m ≤ 12 := by
  obtain ⟨cand, hmem, htok⟩ := monthSearchAux_some s true tok h
  subst htok
  exact months_lookup_of_candidate cand hmem

theorem flatMap_snd_contiguous {β : Type} :
    ∀ (l : List (String × List β)) (f : String × List β), f ∈ l →
      ∃ pre post, l.flatMap Prod.snd = pre ++ (f.2 ++ post) := by
  intro l
  induction l with
  | nil => intro f hf; exact absurd hf (List.not_mem_nil f)
  | cons g t ih =>
    intro f hf
    rcases List.mem_cons.mp hf with he | he
    · subst he
      exact ⟨[], t.flatMap Prod.snd, by simp⟩
    · obtain ⟨pre, post, hp⟩ := ih f he
      exact ⟨g.2 ++ pre, post, by simp [hp]⟩

theorem nameLe_total : ∀ a b : String × List TidyRecord, (nameLe a b || nameLe b a) = true := by
  intro a b
  rcases le_total a.1 b.1 with h | h <;> simp [nameLe, h]

theorem nameLe_trans : ∀ a b c : String × List TidyRecord,
    nameLe a b = true → nameLe b c = true → nameLe a c = true := by
  intro a b c hab hbc
  simp only [nameLe, decide_eq_true_eq] at *
  exact le_trans hab hbc

theorem breakDot_no_dot : ∀ {l : List Char}, '.' ∉ l → breakDot l = (l, none) := by
  intro l
  induction l with
  | nil => intro _; rfl
  | cons c r ih =>
    intro h
    rw [breakDot]
    have hc : ¬c = '.' := fun he => h (he ▸ List.mem_cons_self c r)
    rw [if_neg hc]
    have hr : '.' ∉ r := fun hm => h (List.mem_cons_of_mem c hm)
    rw [ih hr]

theorem stripChars_paren (mid : List Char) :
    stripChars (('(' :: mid) ++ [')']) = ('(' :: mid) ++ [')'] := by
  have hw1 : Char.isWhitespace '(' = false := by decide
  have hw2 : Char.isWhitespace ')' = false := by decide
  simp [stripChars, List.dropWhile_cons, hw1, hw2, List.reverse_append]

theorem stripParens_paren (mid : List Char) :
    stripParens (('(' :: mid) ++ [')']) = (true, mid) := by
  rw [stripParens]
  have hh : (('(' :: mid) ++ [')']).head? = some '(' := by simp
  have hl2 : (('(' :: mid) ++ [')']).getLast? = some ')' := List.getLast?_concat _
  rw [hh, hl2]
  simp [List.dropLast_concat]

theorem pyFloatUnsigned_digits {ds : List Char} (hne : ds ≠ [])
    (hall : ds.all Char.isDigit = true) :
    pyFloatUnsigned ds = some ((digitsVal ds : ℚ)) := by
  have hnd : '.' ∉ ds := by
    intro hm
    have := List.all_eq_true.mp hall '.' hm
    simp [Char.isDigit] at this
  have hbd : breakDot ds = (ds, none) := breakDot_no_dot hnd
  have hred : pyFloatUnsigned ds =
      if ds ≠ [] ∧ ds.all Char.isDigit then some ((digitsVal ds : ℚ)) else none := by
    rw [pyFloatUnsigned, hbd]
  rw [hred, if_pos ⟨hne, hall⟩]

theorem parseAmount_paren_neg_digits {ds : List Char} (hne : ds ≠ [])
    (hall : ds.all Char.isDigit = true) :
    parseAmountChars (some (('(' :: '-' :: ds) ++ [')'])) = some ((digitsVal ds : ℚ)) := by
  have hsc : stripChars (('(' :: '-' :: ds) ++ [')']) = ('(' :: '-' :: ds) ++ [')'] :=
    stripChars_paren ('-' :: ds)
  have hp : stripParens (('(' :: '-' :: ds) ++ [')']) = (true, '-' :: ds) :=
    stripParens_paren ('-' :: ds)
  have hf : ('-' :: ds).filter amountKeep = '-' :: ds := by
    apply List.filter_eq_self.mpr
    intro a ha
    rcases List.mem_cons.mp ha with he | he
    · subst he; decide
    · have := List.all_eq_true.mp hall a he
      simp [amountKeep, this]
  have hpf : pyFloat ('-' :: ds) = some (-(digitsVal ds : ℚ)) := by
    rw [pyFloat]
    rw [if_neg (by decide : ¬('-' : Char) = '+'), if_pos rfl]
    rw [pyFloatUnsigned_digits hne hall]
    rfl
  have hcons : ('(' :: '-' :: ds) ++ [')'] ≠ [] := by simp
  rw [parseAmountChars]
  rw [hsc]
  rw [if_neg (by simp : ¬((('(' :: '-' :: ds) ++ [')'] = []) ∨ (('(' :: '-' :: ds) ++ [')'] = ['-'])))]
  rw [hp]
  simp only
  rw [hf]
  have hne2 : ¬('-' :: ds = [] ∨ '-' :: ds = ['.'] ∨ '-' :: ds = ['-']) := by
    simp [hne]
  rw [if_neg hne2]
  rw [hpf]
  simp only [if_pos]
  rw [neg_neg]

/-! Claim theorems. -/

unseal Rat.add Rat.mul Rat.inv Rat.ofScientific in
/-- C1: running the tidier on 2023_budget.csv with header Category,Jan,Feb,Total
and the two data rows produces exactly the four sorted tidy records
(2023,1,Expense,Rent,-500.0), (2023,1,Income,Salary,1000.0),
(2023,2,Expense,Rent,-500.0), (2023,2,Income,Salary,1000.0): the Total
column is excluded and the filename supplies year 2023 for every row. -/
theorem claim_C1 :
    process_csv "2023_budget.csv" ["Category", "Jan", "Feb", "Total"]
      [[some "Income - Salary", some "1000", some "1000", some "2000"],
       [some "Expense - Rent", some "-500", some "(500)", some "1000"]]
    = some
      [{ year := some 2023, month := some 1, type := some "Expense",
         source := some "Rent", amount := some (-500 : ℚ) },
       { year := some 2023, month := some 1, type := some "Income",
         source := some "Salary", amount := some (1000 : ℚ) },
       { year := some 2023, month := some 2, type := some "Expense",
         source := some "Rent", amount := some (-500 : ℚ) },
       { year := some 2023, month := some 2, type := some "Income",
         source := some "Salary", amount := some (1000 : ℚ) }] := by
  decide

/-- C2: every record emitted by the tidier after the filter step has a
non-null amount and an integer month with 1 ≤ month ≤ 12, and its year is
either null or an integer within 1900 to 2099; no record is emitted with a
null amount or a null month. -/
theorem claim_C2 :
    ∀ (fp : String) (header : List String) (rows : List (List (Option String)))
      (tidy : List TidyRecord), process_csv fp header rows = some tidy →
      ∀ r ∈ tidy, r.amount.isSome = true ∧
        (∃ m, r.month = some m ∧ 1 ≤ m ∧ m ≤ 12) ∧
        (r.year = none ∨ ∃ y, r.year = some y ∧ 1900 ≤ y ∧ y ≤ 2099) := by
  intro fp header rows tidy h r hr
  rw [process_csv] at h
  split at h
  · exact absurd h (by simp)
  · injection h with h
    subst h
    have hr2 := mem_stableSort.mp hr
    obtain ⟨hmem, hpred⟩ := List.mem_filter.mp hr2
    rw [Bool.and_eq_true] at hpred
    obtain ⟨hamt, hmon⟩ := hpred
    simp only [meltFrame] at hmem
    obtain ⟨c, hc, hrow⟩ := List.mem_flatMap.mp hmem
    obtain ⟨row, hrowmem, hrec⟩ := List.mem_map.mp hrow
    have hmonth : r.month = (_parse_period_label (some c)).2 := by
      rw [← hrec]
      exact rfl
    have hyear : r.year =
        fillYear (_parse_period_label (some c)).1 (_parse_year_from_filename fp) := by
      rw [← hrec]
      exact rfl
    refine ⟨hamt, ?_, ?_⟩
    · rw [hmonth] at hmon ⊢
      obtain ⟨m, hm⟩ := Option.isSome_iff_exists.mp hmon
      obtain ⟨h1, h2⟩ := parse_period_month_bounds (some c) m hm
      exact ⟨m, hm, h1, h2⟩
    · rw [hyear]
      rcases hy : (_parse_period_label (some c)).1 with _ | y
      · rcases hyf : _parse_year_from_filename fp with _ | yf
        · left
          rw [fillYear]
        · right
          refine ⟨yf, by rw [fillYear], ?_⟩
          rw [_parse_year_from_filename] at hyf
          exact yearSearch_bounds _ yf hyf
      · right
        obtain ⟨h1, h2⟩ := parse_period_year_bounds (some c) y hy
        exact ⟨y, rfl, h1, h2⟩

/-- A sample tidy record used to instantiate hypotheses of general claims. -/
def sampleRec : TidyRecord :=
  { year := none, month := some 1, type := some "A", source := none,
    amount := some (1 : ℚ) }

unseal Rat.add Rat.mul Rat.inv Rat.ofScientific in
theorem claim_C2_witness :
    sampleRec.amount.isSome = true ∧
    (∃ m, sampleRec.month = some m ∧ 1 ≤ m ∧ m ≤ 12) ∧
    (sampleRec.year = none ∨
     ∃ y, sampleRec.year = some y ∧ 1900 ≤ y ∧ y ≤ 2099) :=
  claim_C2 "f.csv" ["Category", "Jan"] [[some "A", some "1"]] [sampleRec]
    (by decide) sampleRec (by simp)

unseal Rat.add Rat.mul Rat.inv Rat.ofScientific in
/-- C4: amount parsing produces these exact results: "(1,234.56)" parses to
-1234.56; "$1,200" parses to 1200.0; the empty string parses to null; "-"
parses to null; and "  - 50 " parses to -50.0 (character stripping leaves
"-50"). -/
theorem claim_C4 :
    _parse_amount (some "(1,234.56)") = some (-1234.56 : ℚ) ∧
    _parse_amount (some "$1,200") = some (1200 : ℚ) ∧
    _parse_amount (some "") = none ∧
    _parse_amount (some "-") = none ∧
    _parse_amount (some "  - 50 ") = some (-50 : ℚ) := by
  decide

/-- C6: period parsing on the spec examples: "2020 JAN" gives (2020, 1),
"2020-Jan" gives (2020, 1), "Aug" gives (null, 8), "2021-August" gives
(2021, 8), "Q1" gives (null, null); blank or null input gives (null, null). -/
theorem claim_C6 :
    _parse_period_label (some "2020 JAN") = (some 2020, some 1) ∧
    _parse_period_label (some "2020-Jan") = (some 2020, some 1) ∧
    _parse_period_label (some "Aug") = (none, some 8) ∧
    _parse_period_label (some "2021-August") = (some 2021, some 8) ∧
    _parse_period_label (some "Q1") = (none, none) ∧
    _parse_period_label (some "") = (none, none) ∧
    _parse_period_label (some "   ") = (none, none) ∧
    _parse_period_label none = (none, none) := by
  decide

/-- C3: the merged dataset is the concatenation, in ascending input-filename
order, of all per-file tidy outputs; each file's internal record order is
preserved (its rows appear as one contiguous block), and the merged row
count equals the sum of the per-file tidy row counts. -/
theorem claim_C3 :
    ∀ files : List (String × List TidyRecord), files ≠ [] →
      merge_tidy files = some ((stableSort nameLe files).flatMap Prod.snd) ∧
      (stableSort nameLe files).Pairwise (fun a b => nameLe a b = true) ∧
      (stableSort nameLe files).Perm files ∧
      (∀ f ∈ files, ∃ pre post,
        (stableSort nameLe files).flatMap Prod.snd = pre ++ (f.2 ++ post)) ∧
      ((stableSort nameLe files).flatMap Prod.snd).length =
        (files.map (fun f => f.2.length)).sum := by
  intro files hne
  refine ⟨?_, ?_, ?_, ?_, ?_⟩
  · rw [merge_tidy, if_neg hne]
  · exact pairwise_stableSort nameLe_total nameLe_trans files
  · exact stableSort_perm nameLe files
  · intro f hf
    exact flatMap_snd_contiguous _ f (mem_stableSort.mpr hf)
  · rw [List.length_flatMap]
    have hs := ((stableSort_perm nameLe files).map (List.length ∘ Prod.snd)).sum_eq
    rw [hs]
    rfl

theorem claim_C3_witness :
    merge_tidy [("a", ([] : List TidyRecord))] =
      some ((stableSort nameLe [("a", ([] : List TidyRecord))]).flatMap Prod.snd) ∧
    (stableSort nameLe [("a", ([] : List TidyRecord))]).Pairwise
      (fun a b => nameLe a b = true) ∧
    (stableSort nameLe [("a", ([] : List TidyRecord))]).Perm
      [("a", ([] : List TidyRecord))] ∧
    (∀ f ∈ [("a", ([] : List TidyRecord))], ∃ pre post,
      (stableSort nameLe [("a", ([] : List TidyRecord))]).flatMap Prod.snd =
        pre ++ (f.2 ++ post)) ∧
    ((stableSort nameLe [("a", ([] : List TidyRecord))]).flatMap Prod.snd).length =
      ([("a", ([] : List TidyRecord))].map (fun f => f.2.length)).sum :=
  claim_C3 [("a", [])] (by simp)

/-- C5: the amount parser is total and silent on failure: None input yields
null, and any input whose post-strip residual is malformed by holding two
or more decimal points parses to null rather than raising. -/
theorem claim_C5 :
    _parse_amount none = none ∧
    ∀ s : String, 2 ≤ (amountResidual s.data).count '.' →
      _parse_amount (some s) = none := by
  refine ⟨rfl, ?_⟩
  intro s h
  show parseAmountChars (some s.data) = none
  rw [parseAmountChars]
  by_cases h1 : (stripChars s.data = [] ∨ stripChars s.data = ['-'])
  · rw [if_pos h1]
  · rw [if_neg h1]
    have hres : ((stripParens (stripChars s.data)).2).filter amountKeep =
        amountResidual s.data := rfl
    rw [hres]
    by_cases h2 : (amountResidual s.data = [] ∨ amountResidual s.data = ['.'] ∨
        amountResidual s.data = ['-'])
    · rw [if_pos h2]
    · rw [if_neg h2]
      rw [pyFloat_two_dots h]

theorem claim_C5_witness :
    2 ≤ (amountResidual ("1.2.3".data)).count '.' ∧
    _parse_amount (some "1.2.3") = none :=
  ⟨by decide, claim_C5.2 "1.2.3" (by decide)⟩

/-- C7: a non-category header is selected as a period column iff it holds a
month token and its trimmed lowercase text is not total, totals or grand
total; when that filtered set is empty all non-category columns are
selected with no total-exclusion; [Jan, Feb, Total] yields [Jan, Feb],
[X, Y] yields [X, Y], and a bare year header is not a candidate. -/
theorem claim_C7 :
    monthColsOf ["Jan", "Feb", "Total"] = ["Jan", "Feb"] ∧
    monthColsOf ["X", "Y"] = ["X", "Y"] ∧
    _is_month_header (some "2020") = false ∧
    (∀ cols : List String, cols.filter isPeriodCandidate ≠ [] →
      monthColsOf cols = cols.filter isPeriodCandidate) ∧
    (∀ cols : List String, cols.filter isPeriodCandidate = [] →
      monthColsOf cols = cols) ∧
    (∀ (cols : List String) (c : String), c ∈ cols.filter isPeriodCandidate ↔
      c ∈ cols ∧ _is_month_header (some c) = true ∧
        nonMonthSet.contains (lowerStr (String.mk (stripChars c.data))) = false) := by
  refine ⟨by decide, by decide, by decide, ?_, ?_, ?_⟩
  · intro cols h
    rw [monthColsOf]
    simp only [if_neg h]
  · intro cols h
    rw [monthColsOf]
    simp only [if_pos h]
  · intro cols c
    rw [List.mem_filter]
    simp [isPeriodCandidate, Bool.and_eq_true, Bool.not_eq_true']

theorem claim_C7_witness :
    monthColsOf ["Jan"] = List.filter isPeriodCandidate ["Jan"] ∧
    monthColsOf ["X"] = ["X"] :=
  ⟨claim_C7.2.2.2.1 ["Jan"] (by decide), claim_C7.2.2.2.2.1 ["X"] (by decide)⟩

/-- C8: if the raw-input directory does not exist, the pipeline run aborts
with a fatal error before any input file is processed, and never returns a
successful payload, so no tidy or merged output is produced. -/
theorem claim_C8 :
    ∀ w : RawWorld, w.rawDirExists = false →
      run_pipeline w = Except.error "Raw directory not found" ∧
      ∀ out, run_pipeline w ≠ Except.ok out := by
  intro w h
  constructor
  · rw [run_pipeline, if_pos h]
  · intro out hok
    rw [run_pipeline, if_pos h] at hok
    exact absurd hok (by simp)

theorem claim_C8_witness :
    run_pipeline { rawDirExists := false, rawFiles := [] } =
      Except.error "Raw directory not found" ∧
    ∀ out, run_pipeline { rawDirExists := false, rawFiles := [] } ≠ Except.ok out :=
  claim_C8 { rawDirExists := false, rawFiles := [] } rfl

/-- C9: every token the month regular expression accepts has an entry in
MONTHS, so the parsed month is null exactly when the token search finds
nothing, any parsed month lies in 1..12, and any header classified as
month-like parses to a non-null month. -/
theorem claim_C9 :
    ∀ s : String,
      ((_parse_period_label (some s)).2 = none ↔
        monthTokenSearch (stripChars s.data) = none) ∧
      (∀ m, (_parse_period_label (some s)).2 = some m → 1 ≤ m ∧ m ≤ 12) ∧
      (_is_month_header (some s) = true →
        ∃ m, (_parse_period_label (some s)).2 = some m ∧ 1 ≤ m ∧ m ≤ 12) := by
  intro s
  have hm : (_parse_period_label (some s)).2 =
      match monthTokenSearch (stripChars s.data) with
      | none => none
      | some tok => MONTHS.lookup (String.mk (tok.map Char.toUpper)) := rfl
  have hh : _is_month_header (some s) =
      (monthTokenSearch (stripChars s.data)).isSome := rfl
  rcases hsr : monthTokenSearch (stripChars s.data) with _ | tok
  · have hm2 : (_parse_period_label (some s)).2 = none := by rw [hm, hsr]
    refine ⟨by simp [hm2], ?_, ?_⟩
    · intro m hmm2
      rw [hm2] at hmm2
      exact absurd hmm2 (by simp)
    · intro hmh
      rw [hh, hsr] at hmh
      exact absurd hmh (by simp)
  · obtain ⟨m, hlk, hb1, hb2⟩ := monthTokenSearch_lookup hsr
    have hm2 : (_parse_period_label (some s)).2 = some m := by
      rw [hm, hsr]
      exact hlk
    refine ⟨by simp [hm2], ?_, ?_⟩
    · intro m2 hm3
      rw [hm2] at hm3
      injection hm3 with hinj
      subst hinj
      exact ⟨hb1, hb2⟩
    · intro _
      exact ⟨m, hm2, hb1, hb2⟩

theorem claim_C9_witness :
    ∃ m, (_parse_period_label (some "Jan")).2 = some m ∧ 1 ≤ m ∧ m ≤ 12 :=
  (claim_C9 "Jan").2.2 (by decide)

/-- C10: for a parenthesized amount whose interior carries its own minus
sign the two negations cancel: an input of the form (-x) with x a nonzero
digit string parses to the positive value +x. -/
theorem claim_C10 :
    ∀ ds : List Char, ds ≠ [] → ds.all Char.isDigit = true →
      parseAmountChars (some (('(' :: '-' :: ds) ++ [')'])) =
        some ((digitsVal ds : ℚ)) ∧
      ((∃ d ∈ ds, d ≠ '0') → 0 < (digitsVal ds : ℚ)) := by
  intro ds hne hall
  refine ⟨parseAmount_paren_neg_digits hne hall, ?_⟩
  intro hd
  have hpos : 0 < digitsVal ds :=
    digitsValAux_pos ds 0 (List.all_eq_true.mp hall) (Or.inl hd)
  exact_mod_cast hpos

theorem claim_C10_witness :
    parseAmountChars (some (('(' :: '-' :: ['5']) ++ [')'])) =
      some ((digitsVal ['5'] : ℚ)) ∧
    ((∃ d ∈ ['5'], d ≠ '0') → 0 < (digitsVal ['5'] : ℚ)) :=
  claim_C10 ['5'] (by decide) (by decide)
